import Mathlib

/-!
Verification of the cinevoz audio-synchronization core.

This file gives a shallow embedding, over the real numbers, of the audio
fingerprint matcher (`src/utils/audioMatcher.ts`) and of the sync controller
(`runSyncCheck`, `seekTo`, `forceResync` in `src/components/LiveDescriber.tsx`),
together with theorems settling the specification claims about them.

Floating-point arithmetic is modelled by exact real arithmetic; JavaScript
`Math.sqrt`, `Math.floor`, `Math.max`, `Math.abs` become `Real.sqrt`,
`Int.floor`/`Nat.floor`, `max`, `abs`.  A `Float32Array` envelope is modelled
as a length together with a total function `ℕ → ℝ` (`Env`).
-/

namespace Cinevoz

/-- An audio envelope (models a `Float32Array` produced by the extractor):
a length and the sample values. -/
structure Env where
  len : ℕ
  val : ℕ → ℝ

/-- Constant `TARGET_SAMPLE_RATE = 20` (20 Hz envelope resolution). -/
def TARGET_SAMPLE_RATE : ℕ := 20

/-- Constant `MIN_RMS_THRESHOLD = 0.005` (energy floor). -/
noncomputable def MIN_RMS_THRESHOLD : ℝ := 0.005

/-- Constant `MIN_VARIANCE_THRESHOLD = 0.0005` (flatness floor). -/
noncomputable def MIN_VARIANCE_THRESHOLD : ℝ := 0.0005

/-- The result record returned by `findMatch`. -/
structure MatchResult where
  currentTime : ℝ
  confidence : ℝ

/-- Number of output points of the envelope extractor:
`Math.floor(duration * TARGET_SAMPLE_RATE)` with `duration = pcmLen / srcRate`. -/
noncomputable def envPoints (pcmLen srcRate : ℕ) : ℕ :=
  ⌊((pcmLen : ℝ) / (srcRate : ℝ)) * (TARGET_SAMPLE_RATE : ℝ)⌋₊

/-- Source samples per envelope point: `Math.floor(srcRate / TARGET_SAMPLE_RATE)`. -/
noncomputable def envStep (srcRate : ℕ) : ℕ :=
  ⌊(srcRate : ℝ) / (TARGET_SAMPLE_RATE : ℝ)⌋₊

/-- RMS of one extraction window `[start, stop)`:
`Math.sqrt(sum of squares / (stop - start))`. -/
noncomputable def windowRMS (pcm : ℕ → ℝ) (start stop : ℕ) : ℝ :=
  Real.sqrt ((∑ j ∈ Finset.Ico start stop, pcm j * pcm j) / ((stop : ℝ) - (start : ℝ)))

/-- Method `AudioMatcher.extractEnvelope`: resamples raw PCM (length `pcmLen` at rate
`srcRate`) to a 20 Hz RMS energy envelope.  The window for output index `i` is
`[i*step, min(i*step + step, pcmLen))`. -/
noncomputable def extractEnvelope (pcm : ℕ → ℝ) (pcmLen srcRate : ℕ) : Env :=
  ⟨envPoints pcmLen srcRate,
   fun i => windowRMS pcm (i * envStep srcRate)
      (min (i * envStep srcRate + envStep srcRate) pcmLen)⟩

/-- Method `AudioMatcher.createLiveFingerprint`: same computation as
`extractEnvelope`, duplicated in the source for the live microphone path. -/
noncomputable def createLiveFingerprint (pcmData : ℕ → ℝ) (pcmLen sampleRate : ℕ) : Env :=
  ⟨envPoints pcmLen sampleRate,
   fun i => windowRMS pcmData (i * envStep sampleRate)
      (min (i * envStep sampleRate + envStep sampleRate) pcmLen)⟩

/-- Quantity `sumL`: sum of the live envelope values. -/
noncomputable def sumL (live : Env) : ℝ :=
  ∑ i ∈ Finset.range live.len, live.val i

/-- Quantity `sumSqL`: sum of squares of the live envelope values. -/
noncomputable def sumSqL (live : Env) : ℝ :=
  ∑ i ∈ Finset.range live.len, live.val i * live.val i

/-- Quantity `meanL = sumL / N`. -/
noncomputable def meanL (live : Env) : ℝ := sumL live / (live.len : ℝ)

/-- Quantity `varianceL = sumSqL / N - meanL^2`. -/
noncomputable def varianceL (live : Env) : ℝ :=
  sumSqL live / (live.len : ℝ) - meanL live * meanL live

/-- Quantity `rmsL = sqrt(sumSqL / N)`. -/
noncomputable def rmsL (live : Env) : ℝ := Real.sqrt (sumSqL live / (live.len : ℝ))

/-- Quantity `denL = sqrt(max(0, sumSqL - N * meanL * meanL))`. -/
noncomputable def denL (live : Env) : ℝ :=
  Real.sqrt (max 0 (sumSqL live - (live.len : ℝ) * meanL live * meanL live))

/-- The energy gate of `findMatch`:
`rmsL < MIN_RMS_THRESHOLD || varianceL < MIN_VARIANCE_THRESHOLD`. -/
noncomputable def energyGate (live : Env) : Prop :=
  rmsL live < MIN_RMS_THRESHOLD ∨ varianceL live < MIN_VARIANCE_THRESHOLD

/-- Quantity `sumM` of the master window of length `N` starting at offset `i`. -/
noncomputable def sumMAt (m : Env) (N i : ℕ) : ℝ :=
  ∑ j ∈ Finset.range N, m.val (i + j)

/-- Quantity `sumSqM` of the master window of length `N` starting at offset `i`. -/
noncomputable def sumSqMAt (m : Env) (N i : ℕ) : ℝ :=
  ∑ j ∈ Finset.range N, m.val (i + j) * m.val (i + j)

/-- Quantity `crossSum` between the master window at offset `i` and the live envelope. -/
noncomputable def crossSumAt (m live : Env) (i : ℕ) : ℝ :=
  ∑ j ∈ Finset.range live.len, m.val (i + j) * live.val j

/-- Quantity `meanM = sumM / N` for the window at offset `i`. -/
noncomputable def meanMAt (m : Env) (N i : ℕ) : ℝ := sumMAt m N i / (N : ℝ)

/-- Quantity `denM = sqrt(max(0, sumSqM - N * meanM * meanM))` for the window at offset `i`. -/
noncomputable def denMAt (m : Env) (N i : ℕ) : ℝ :=
  Real.sqrt (max 0 (sumSqMAt m N i - (N : ℝ) * meanMAt m N i * meanMAt m N i))

/-- The Pearson coefficient computed by the scan at offset `i`:
`r = (crossSum - N*meanL*meanM) / (denL * denM)`. -/
noncomputable def pearsonAt (m live : Env) (i : ℕ) : ℝ :=
  (crossSumAt m live i - (live.len : ℝ) * meanL live * meanMAt m live.len i) /
    (denL live * denMAt m live.len i)

/-- One iteration of the sliding-correlation loop: the accumulator holds
`(maxCorr, bestStartIdx)`; the body runs only when `denM > 0`, and updates the
accumulator when `r > maxCorr`. -/
noncomputable def scanStep (m live : Env) (acc : ℝ × ℤ) (i : ℕ) : ℝ × ℤ :=
  if 0 < denMAt m live.len i then
    if acc.1 < pearsonAt m live i then (pearsonAt m live i, (i : ℤ)) else acc
  else acc

/-- The list of candidate start offsets traversed by the correlation loop
(`for (i = startIdx; i < endIdx; i++)`).  Global scan (no usable hint):
`startIdx = 0`, `endIdx = M - N`.  Local scan (`hint ≥ 0` and `width > 0`):
`startIdx = max(0, hintIdx - N - widthIdx)`, `endIdx = min(M - N, hintIdx - N + widthIdx)`. -/
noncomputable def scanRange (M N : ℕ) (searchHintTime scanWidthSeconds : ℝ) : List ℕ :=
  if 0 ≤ searchHintTime ∧ 0 < scanWidthSeconds then
    let hintIdx : ℤ := ⌊searchHintTime * (TARGET_SAMPLE_RATE : ℝ)⌋
    let widthIdx : ℤ := ⌊scanWidthSeconds * (TARGET_SAMPLE_RATE : ℝ)⌋
    let targetStartIdx : ℤ := hintIdx - (N : ℤ)
    let startIdx : ℤ := max 0 (targetStartIdx - widthIdx)
    let endIdx : ℤ := min ((M : ℤ) - (N : ℤ)) (targetStartIdx + widthIdx)
    List.range' startIdx.toNat (endIdx - startIdx).toNat
  else
    List.range' 0 ((M : ℤ) - (N : ℤ)).toNat

/-- Method `AudioMatcher.findMatch`.  Here `master` is the optional master envelope
(`null` when no fingerprint has been built); `live` is the live envelope;
`searchHintTime = -1` requests a global scan. -/
noncomputable def findMatch (master : Option Env) (live : Env)
    (searchHintTime scanWidthSeconds : ℝ) : MatchResult :=
  match master with
  | none => ⟨0, 0⟩
  | some m =>
    if live.len < TARGET_SAMPLE_RATE * 2 then ⟨0, 0⟩
    else if rmsL live < MIN_RMS_THRESHOLD ∨ varianceL live < MIN_VARIANCE_THRESHOLD then ⟨0, 0⟩
    else if denL live = 0 then ⟨0, 0⟩
    else
      let best :=
        (scanRange m.len live.len searchHintTime scanWidthSeconds).foldl
          (scanStep m live) (-1, -1)
      ⟨((best.2 : ℝ) + (live.len : ℝ)) / (TARGET_SAMPLE_RATE : ℝ),
       max 0 (best.1 * 100)⟩

/-- The `(maxCorr, bestStartIdx)` pair computed by the correlation loop of
`findMatch`, starting from the initial accumulator `(-1, -1)`. -/
noncomputable def bestOf (m live : Env) (searchHintTime scanWidthSeconds : ℝ) : ℝ × ℤ :=
  (scanRange m.len live.len searchHintTime scanWidthSeconds).foldl (scanStep m live) (-1, -1)

/-- A live envelope rescaled by gain `a` and additive offset `b`
(models a different microphone/volume on the live path). -/
noncomputable def scaleEnv (a b : ℝ) (e : Env) : Env :=
  ⟨e.len, fun i => a * e.val i + b⟩

/-- Concrete test envelope: 40 live samples alternating 1, 0.  It passes the
energy and flatness gates. -/
def live40 : Env := ⟨40, fun i => if i % 2 = 0 then 1 else 0⟩

/-- Concrete test envelope: 41 master samples alternating 0, 1.  Its window of
length 40 at start offset 1 is exactly `live40`. -/
def master41 : Env := ⟨41, fun i => if i % 2 = 1 then 1 else 0⟩

/-! ## Sync controller (`LiveDescriber.tsx`)

State fields modelled: `currentMovieTimeRef`, `syncLockUntilRef`,
`potentialSyncRef`, `isGlobalScanNeeded`, `isLocked`.  The rolling live buffer
and the audio/TTS side effects are outside the modelled state; a tick receives
`ready` (abbreviating `studioContextRef.current ≠ null ∧ liveBufferRef.length ≥ 30`)
and the `MatchResult` that `audioMatcher.findMatch` returns on the fingerprint
built from the buffer.  Wall-clock instants (`Date.now()`) are reals in
milliseconds; the `Infinity` lock sentinel is the `LockTime.inf` constructor. -/

/-- The value of `syncLockUntilRef`: a finite millisecond deadline, or the
permanent sentinel `Infinity`. -/
inductive LockTime where
  | fin (t : ℝ)
  | inf

/-- Payload of `potentialSyncRef`: `{time, timestamp, count}`. -/
structure Candidate where
  time : ℝ
  timestamp : ℝ
  count : ℕ

/-- The controller state. -/
structure SyncState where
  currentMovieTime : ℝ
  syncLockUntil : LockTime
  potentialSync : Option Candidate
  isGlobalScanNeeded : Bool
  isLocked : Bool

/-- What a tick reports: whether the Correlation Matcher was invoked, whether
the `result.confidence > MIN_CONFIDENCE` branch was taken, and the confidence
value displayed this tick (`none` when the tick leaves the display untouched). -/
structure TickReport where
  matcherInvoked : Bool
  accepted : Bool
  syncConfidence : Option ℝ

/-- Constant choice `MIN_CONFIDENCE = isGlobal ? 30 : 40`. -/
noncomputable def MIN_CONFIDENCE (isGlobal : Bool) : ℝ := if isGlobal then 30 else 40

/-- Constant `LATENCY_COMPENSATION = 0.5` seconds. -/
noncomputable def LATENCY_COMPENSATION : ℝ := 0.5

/-- JavaScript `Math.round`. -/
noncomputable def jsRound (x : ℝ) : ℝ := (⌊x + 1 / 2⌋ : ℤ)

/-- Operation `seekTo(time)` called at wall-clock `now`, restricted to the modelled
state: sets the believed position, releases the permanent lock flag, and opens
the 5-second stabilizing window (`syncLockUntilRef = Date.now() + 5000`). -/
noncomputable def seekTo (st : SyncState) (time now : ℝ) : SyncState :=
  { st with
      currentMovieTime := time
      isLocked := false
      syncLockUntil := .fin (now + 5000) }

/-- Operation `forceResync()`: drops the lock, clears the candidate and forces the next
scan to be global (buffer clearing is outside the modelled state). -/
def forceResync (st : SyncState) : SyncState :=
  { st with
      isLocked := false
      syncLockUntil := .fin 0
      potentialSync := none
      isGlobalScanNeeded := true }

/-- Operation `runSyncCheck()` — one controller tick at wall-clock `now`.  Input `ready`
abbreviates `studioContextRef.current ≠ null ∧ liveBufferRef.length ≥ 30`;
`result` is what `audioMatcher.findMatch` returns for this tick's live
fingerprint with the mode's scan parameters. -/
noncomputable def runSyncCheck (st : SyncState) (now : ℝ) (ready : Bool)
    (result : MatchResult) : SyncState × TickReport :=
  match st.syncLockUntil with
  | .inf =>
    ({ st with isLocked := true }, ⟨false, false, some 100⟩)
  | .fin lockUntil =>
    let st := { st with isLocked := false }
    if ready = false then (st, ⟨false, false, none⟩)
    else if now < lockUntil then (st, ⟨false, false, none⟩)
    else
      let isGlobal := st.isGlobalScanNeeded
      let reported : Option ℝ := some (jsRound result.confidence)
      if MIN_CONFIDENCE isGlobal < result.confidence then
        let adjustedTime := max 0 (result.currentTime - LATENCY_COMPENSATION)
        let absDiff := |adjustedTime - st.currentMovieTime|
        if 3 < absDiff ∨ isGlobal = true then
          match st.potentialSync with
          | some p =>
            let expectedTime := p.time + (now - p.timestamp) / 1000
            if |adjustedTime - expectedTime| < 2 then
              let newCount := p.count + 1
              if 2 ≤ newCount then
                let stSeek := seekTo st adjustedTime now
                ({ stSeek with
                      potentialSync := none
                      isGlobalScanNeeded := false
                      syncLockUntil := .inf },
                 ⟨true, true, reported⟩)
              else
                ({ st with potentialSync := some ⟨adjustedTime, now, newCount⟩ },
                 ⟨true, true, reported⟩)
            else
              ({ st with potentialSync := some ⟨adjustedTime, now, 1⟩ },
               ⟨true, true, reported⟩)
          | none =>
            ({ st with potentialSync := some ⟨adjustedTime, now, 1⟩ },
             ⟨true, true, reported⟩)
        else
          ({ st with potentialSync := none }, ⟨true, true, reported⟩)
      else
        ({ st with potentialSync := none }, ⟨true, false, reported⟩)

/-! ## Algebraic facts about the Pearson computation -/

/-- Expanding a sum of centered products: the computational form
`crossSum - n * (Sf/n) * (Sg/n)` used by the code equals the sum of products
of deviations from the means. -/
lemma centered_mul_sum (f g : ℕ → ℝ) (n : ℕ) (hn : (n : ℝ) ≠ 0) :
    ∑ j ∈ Finset.range n,
      (f j - (∑ k ∈ Finset.range n, f k) / n) * (g j - (∑ k ∈ Finset.range n, g k) / n)
    = (∑ j ∈ Finset.range n, f j * g j)
      - (n : ℝ) * ((∑ k ∈ Finset.range n, f k) / n) * ((∑ k ∈ Finset.range n, g k) / n) := by
  set Sf := ∑ k ∈ Finset.range n, f k with hSf
  set Sg := ∑ k ∈ Finset.range n, g k with hSg
  have expand : ∀ j ∈ Finset.range n, (f j - Sf / n) * (g j - Sg / n)
      = f j * g j - f j * (Sg / n) - (Sf / n) * g j + (Sf / n) * (Sg / n) := by
    intro j _; ring
  rw [Finset.sum_congr rfl expand]
  rw [Finset.sum_add_distrib, Finset.sum_sub_distrib, Finset.sum_sub_distrib,
      ← Finset.sum_mul, ← Finset.mul_sum, Finset.sum_const, Finset.card_range,
      nsmul_eq_mul, ← hSf, ← hSg]
  field_simp
  ring

/-- The live-side quantity under the square root of `denL` is the centered sum
of squares of the live envelope. -/
lemma sumSqL_centered (live : Env) (hn : (live.len : ℝ) ≠ 0) :
    sumSqL live - (live.len : ℝ) * meanL live * meanL live
    = ∑ j ∈ Finset.range live.len, (live.val j - meanL live) * (live.val j - meanL live) := by
  have h := centered_mul_sum live.val live.val live.len hn
  rw [sumSqL, meanL, sumL]
  rw [h]

/-- The master-side quantity under the square root of `denM` is the centered
sum of squares of the master window at offset `i`. -/
lemma sumSqM_centered (m : Env) (N i : ℕ) (hn : (N : ℝ) ≠ 0) :
    sumSqMAt m N i - (N : ℝ) * meanMAt m N i * meanMAt m N i
    = ∑ j ∈ Finset.range N,
        (m.val (i + j) - meanMAt m N i) * (m.val (i + j) - meanMAt m N i) := by
  have h := centered_mul_sum (fun j => m.val (i + j)) (fun j => m.val (i + j)) N hn
  rw [sumSqMAt, meanMAt, sumMAt]
  rw [h]

/-- The numerator of the Pearson coefficient is the centered cross sum. -/
lemma cross_centered (m live : Env) (i : ℕ) (hn : (live.len : ℝ) ≠ 0) :
    crossSumAt m live i - (live.len : ℝ) * meanL live * meanMAt m live.len i
    = ∑ j ∈ Finset.range live.len,
        (m.val (i + j) - meanMAt m live.len i) * (live.val j - meanL live) := by
  have h := centered_mul_sum (fun j => m.val (i + j)) live.val live.len hn
  rw [crossSumAt, meanL, sumL, meanMAt, sumMAt]
  rw [h]
  ring

/-- Centered sums of squares are nonnegative, so the `max 0` guard inside
`denL` is the identity there. -/
lemma centered_sq_nonneg (f : ℕ → ℝ) (n : ℕ) (c : ℝ) :
    0 ≤ ∑ j ∈ Finset.range n, (f j - c) * (f j - c) :=
  Finset.sum_nonneg fun _ _ => mul_self_nonneg _

/-- Denominator `denL` is the square root of the centered live sum of squares. -/
lemma denL_eq_sqrt (live : Env) (hn : (live.len : ℝ) ≠ 0) :
    denL live = Real.sqrt
      (∑ j ∈ Finset.range live.len, (live.val j - meanL live) * (live.val j - meanL live)) := by
  rw [denL, sumSqL_centered live hn, max_eq_right (centered_sq_nonneg _ _ _)]

/-- Denominator `denM` is the square root of the centered master-window sum of squares. -/
lemma denM_eq_sqrt (m : Env) (N i : ℕ) (hn : (N : ℝ) ≠ 0) :
    denMAt m N i = Real.sqrt
      (∑ j ∈ Finset.range N,
        (m.val (i + j) - meanMAt m N i) * (m.val (i + j) - meanMAt m N i)) := by
  rw [denMAt, sumSqM_centered m N i hn, max_eq_right (centered_sq_nonneg _ _ _)]

/-- Cauchy–Schwarz for the scan: every Pearson coefficient the loop can
consider is at most `1`. -/
lemma pearsonAt_le_one (m live : Env) (i : ℕ) (hn : 0 < live.len)
    (hdenL : denL live ≠ 0) (hdenM : 0 < denMAt m live.len i) :
    pearsonAt m live i ≤ 1 := by
  have hnr : (live.len : ℝ) ≠ 0 := Nat.cast_ne_zero.mpr hn.ne'
  set N := live.len
  set a : ℕ → ℝ := fun j => m.val (i + j) - meanMAt m N i with ha
  set b : ℕ → ℝ := fun j => live.val j - meanL live with hb
  have hA : denMAt m N i = Real.sqrt (∑ j ∈ Finset.range N, a j * a j) :=
    denM_eq_sqrt m N i hnr
  have hB : denL live = Real.sqrt (∑ j ∈ Finset.range N, b j * b j) :=
    denL_eq_sqrt live hnr
  have hcov : crossSumAt m live i - (N : ℝ) * meanL live * meanMAt m N i
      = ∑ j ∈ Finset.range N, a j * b j := cross_centered m live i hnr
  have hCS : (∑ j ∈ Finset.range N, a j * b j) ^ 2
      ≤ (∑ j ∈ Finset.range N, a j ^ 2) * ∑ j ∈ Finset.range N, b j ^ 2 :=
    Finset.sum_mul_sq_le_sq_mul_sq _ _ _
  have hsq : ∀ h : ℕ → ℝ, ∑ j ∈ Finset.range N, h j * h j
      = ∑ j ∈ Finset.range N, h j ^ 2 := by
    intro h; exact Finset.sum_congr rfl fun _ _ => by ring
  have hnum : ∑ j ∈ Finset.range N, a j * b j
      ≤ Real.sqrt (∑ j ∈ Finset.range N, a j * a j)
        * Real.sqrt (∑ j ∈ Finset.range N, b j * b j) := by
    calc ∑ j ∈ Finset.range N, a j * b j
        ≤ |∑ j ∈ Finset.range N, a j * b j| := le_abs_self _
      _ = Real.sqrt ((∑ j ∈ Finset.range N, a j * b j) ^ 2) :=
          (Real.sqrt_sq_eq_abs _).symm
      _ ≤ Real.sqrt ((∑ j ∈ Finset.range N, a j ^ 2) * ∑ j ∈ Finset.range N, b j ^ 2) :=
          Real.sqrt_le_sqrt hCS
      _ = Real.sqrt (∑ j ∈ Finset.range N, a j * a j)
            * Real.sqrt (∑ j ∈ Finset.range N, b j * b j) := by
          rw [hsq a, hsq b, Real.sqrt_mul (Finset.sum_nonneg fun _ _ => sq_nonneg _)]
  have hdenLpos : 0 < denL live := lt_of_le_of_ne (Real.sqrt_nonneg _) (Ne.symm hdenL)
  have hdenpos : 0 < denL live * denMAt m N i := mul_pos hdenLpos hdenM
  rw [pearsonAt, div_le_one hdenpos]
  calc crossSumAt m live i - (N : ℝ) * meanL live * meanMAt m N i
      = ∑ j ∈ Finset.range N, a j * b j := hcov
    _ ≤ Real.sqrt (∑ j ∈ Finset.range N, a j * a j)
          * Real.sqrt (∑ j ∈ Finset.range N, b j * b j) := hnum
    _ = denL live * denMAt m N i := by rw [← hA, ← hB]; ring

/-! ## Properties of the sliding-correlation fold -/

/-- One scan step never decreases the running maximum. -/
lemma scanStep_fst_le (m live : Env) (acc : ℝ × ℤ) (i : ℕ) :
    acc.1 ≤ (scanStep m live acc i).1 := by
  rw [scanStep]
  split_ifs with h1 h2
  · exact le_of_lt h2
  · exact le_refl _
  · exact le_refl _

/-- The fold never decreases the running maximum. -/
lemma foldl_scanStep_fst_le (m live : Env) (l : List ℕ) (acc : ℝ × ℤ) :
    acc.1 ≤ (l.foldl (scanStep m live) acc).1 := by
  induction l generalizing acc with
  | nil => exact le_refl _
  | cons x t ih =>
    exact le_trans (scanStep_fst_le m live acc x) (ih (scanStep m live acc x))

/-- Exhaustiveness of the scan: the final running maximum dominates the
Pearson coefficient of every traversed offset whose `denM` is positive. -/
lemma foldl_scanStep_dominates (m live : Env) (l : List ℕ) (acc : ℝ × ℤ)
    (i : ℕ) (hi : i ∈ l) (hden : 0 < denMAt m live.len i) :
    pearsonAt m live i ≤ (l.foldl (scanStep m live) acc).1 := by
  induction l generalizing acc with
  | nil => cases hi
  | cons x t ih =>
    rcases List.mem_cons.mp hi with h | hmem
    · subst h
      have h1 : pearsonAt m live i ≤ (scanStep m live acc i).1 := by
        rw [scanStep, if_pos hden]
        split_ifs with h2
        · exact le_refl _
        · exact le_of_not_lt h2
      exact le_trans h1 (foldl_scanStep_fst_le m live t (scanStep m live acc i))
    · exact ih (scanStep m live acc x) hmem

/-- What the fold returns: either the accumulator is returned unchanged, or
the result is realized by some traversed offset with positive `denM` that
strictly improves on the initial running maximum. -/
lemma foldl_scanStep_achieves (m live : Env) (l : List ℕ) (acc : ℝ × ℤ) :
    l.foldl (scanStep m live) acc = acc ∨
    ∃ i ∈ l, 0 < denMAt m live.len i ∧
      (l.foldl (scanStep m live) acc).1 = pearsonAt m live i ∧
      (l.foldl (scanStep m live) acc).2 = (i : ℤ) ∧
      acc.1 < pearsonAt m live i := by
  induction l generalizing acc with
  | nil => exact Or.inl rfl
  | cons x t ih =>
    rw [List.foldl_cons]
    rcases ih (scanStep m live acc x) with heq | ⟨i, hi, hden, h1, h2, h3⟩
    · rw [heq]
      by_cases hdx : 0 < denMAt m live.len x
      · by_cases hlt : acc.1 < pearsonAt m live x
        · right
          refine ⟨x, List.mem_cons_self x t, hdx, ?_, ?_, hlt⟩
          · rw [scanStep, if_pos hdx, if_pos hlt]
          · rw [scanStep, if_pos hdx, if_pos hlt]
        · left
          rw [scanStep, if_pos hdx, if_neg hlt]
      · left
        rw [scanStep, if_neg hdx]
    · right
      refine ⟨i, List.mem_cons_of_mem x hi, hden, h1, h2, ?_⟩
      exact lt_of_le_of_lt (scanStep_fst_le m live acc x) h3

/-- The running maximum stays at most `1` along the scan. -/
lemma foldl_scanStep_le_one (m live : Env) (hn : 0 < live.len)
    (hdenL : denL live ≠ 0) (l : List ℕ) (acc : ℝ × ℤ) (hacc : acc.1 ≤ 1) :
    (l.foldl (scanStep m live) acc).1 ≤ 1 := by
  induction l generalizing acc with
  | nil => exact hacc
  | cons x t ih =>
    refine ih (scanStep m live acc x) ?_
    rw [scanStep]
    split_ifs with h1 h2
    · exact pearsonAt_le_one m live x hn hdenL h1
    · exact hacc
    · exact hacc

/-! ## Evaluation of the matcher on the concrete test envelopes -/

lemma live40_len : live40.len = 40 := rfl

lemma master41_len : master41.len = 41 := rfl

lemma sumL_live40 : sumL live40 = 20 := by
  rw [sumL]
  show ∑ i ∈ Finset.range 40, (if i % 2 = 0 then (1 : ℝ) else 0) = 20
  simp only [Finset.sum_range_succ, Finset.sum_range_zero]
  norm_num

lemma sumSqL_live40 : sumSqL live40 = 20 := by
  rw [sumSqL]
  show ∑ i ∈ Finset.range 40,
      (if i % 2 = 0 then (1 : ℝ) else 0) * (if i % 2 = 0 then (1 : ℝ) else 0) = 20
  simp only [Finset.sum_range_succ, Finset.sum_range_zero]
  norm_num

lemma meanL_live40 : meanL live40 = 1 / 2 := by
  rw [meanL, sumL_live40, live40_len]
  norm_num

lemma varianceL_live40 : varianceL live40 = 1 / 4 := by
  rw [varianceL, sumSqL_live40, meanL_live40, live40_len]
  norm_num

lemma rmsL_live40 : rmsL live40 = Real.sqrt (1 / 2) := by
  rw [rmsL, sumSqL_live40, live40_len]
  norm_num

lemma denL_live40 : denL live40 = Real.sqrt 10 := by
  rw [denL, sumSqL_live40, meanL_live40, live40_len]
  norm_num [max_eq_right]

lemma denL_live40_ne : ¬ denL live40 = 0 := by
  rw [denL_live40]
  intro h
  rw [Real.sqrt_eq_zero'] at h
  norm_num at h

lemma live40_not_short : ¬ live40.len < TARGET_SAMPLE_RATE * 2 := by
  rw [live40_len, TARGET_SAMPLE_RATE]
  omega

lemma live40_gates :
    ¬ (rmsL live40 < MIN_RMS_THRESHOLD ∨ varianceL live40 < MIN_VARIANCE_THRESHOLD) := by
  rw [rmsL_live40, varianceL_live40, MIN_RMS_THRESHOLD, MIN_VARIANCE_THRESHOLD]
  push_neg
  constructor
  · rw [Real.le_sqrt' (by norm_num : (0 : ℝ) < 0.005)]
    norm_num
  · norm_num

lemma sumM_master41_0 : sumMAt master41 40 0 = 20 := by
  rw [sumMAt]
  show ∑ j ∈ Finset.range 40, (if (0 + j) % 2 = 1 then (1 : ℝ) else 0) = 20
  simp only [Finset.sum_range_succ, Finset.sum_range_zero]
  norm_num

lemma sumSqM_master41_0 : sumSqMAt master41 40 0 = 20 := by
  rw [sumSqMAt]
  show ∑ j ∈ Finset.range 40,
      (if (0 + j) % 2 = 1 then (1 : ℝ) else 0) * (if (0 + j) % 2 = 1 then (1 : ℝ) else 0) = 20
  simp only [Finset.sum_range_succ, Finset.sum_range_zero]
  norm_num

lemma cross_master41_0 : crossSumAt master41 live40 0 = 0 := by
  rw [crossSumAt]
  show ∑ j ∈ Finset.range 40,
      (if (0 + j) % 2 = 1 then (1 : ℝ) else 0) * (if j % 2 = 0 then (1 : ℝ) else 0) = 0
  simp only [Finset.sum_range_succ, Finset.sum_range_zero]
  norm_num

lemma sumM_master41_1 : sumMAt master41 40 1 = 20 := by
  rw [sumMAt]
  show ∑ j ∈ Finset.range 40, (if (1 + j) % 2 = 1 then (1 : ℝ) else 0) = 20
  simp only [Finset.sum_range_succ, Finset.sum_range_zero]
  norm_num

lemma sumSqM_master41_1 : sumSqMAt master41 40 1 = 20 := by
  rw [sumSqMAt]
  show ∑ j ∈ Finset.range 40,
      (if (1 + j) % 2 = 1 then (1 : ℝ) else 0) * (if (1 + j) % 2 = 1 then (1 : ℝ) else 0) = 20
  simp only [Finset.sum_range_succ, Finset.sum_range_zero]
  norm_num

lemma cross_master41_1 : crossSumAt master41 live40 1 = 20 := by
  rw [crossSumAt]
  show ∑ j ∈ Finset.range 40,
      (if (1 + j) % 2 = 1 then (1 : ℝ) else 0) * (if j % 2 = 0 then (1 : ℝ) else 0) = 20
  simp only [Finset.sum_range_succ, Finset.sum_range_zero]
  norm_num

lemma meanM_master41_0 : meanMAt master41 40 0 = 1 / 2 := by
  rw [meanMAt, sumM_master41_0]
  norm_num

lemma meanM_master41_1 : meanMAt master41 40 1 = 1 / 2 := by
  rw [meanMAt, sumM_master41_1]
  norm_num

lemma denM_master41_0 : denMAt master41 40 0 = Real.sqrt 10 := by
  rw [denMAt, sumSqM_master41_0, meanM_master41_0]
  norm_num [max_eq_right]

lemma denM_master41_1 : denMAt master41 40 1 = Real.sqrt 10 := by
  rw [denMAt, sumSqM_master41_1, meanM_master41_1]
  norm_num [max_eq_right]

lemma denM_master41_0_pos : 0 < denMAt master41 40 0 := by
  rw [denM_master41_0]
  exact Real.sqrt_pos.mpr (by norm_num)

lemma pearson_master41_0 : pearsonAt master41 live40 0 = -1 := by
  rw [pearsonAt]
  rw [live40_len, cross_master41_0, meanL_live40, meanM_master41_0,
      denL_live40, denM_master41_0]
  rw [Real.mul_self_sqrt (by norm_num : (0 : ℝ) ≤ 10)]
  norm_num

lemma pearson_master41_1 : pearsonAt master41 live40 1 = 1 := by
  rw [pearsonAt]
  rw [live40_len, cross_master41_1, meanL_live40, meanM_master41_1,
      denL_live40, denM_master41_1]
  rw [Real.mul_self_sqrt (by norm_num : (0 : ℝ) ≤ 10)]
  norm_num

lemma scanRange_master41 : scanRange master41.len live40.len (-1) 120 = [0] := by
  rw [master41_len, live40_len, scanRange,
      if_neg (by norm_num : ¬ ((0 : ℝ) ≤ -1 ∧ (0 : ℝ) < 120))]
  decide

lemma bestOf_master41 : bestOf master41 live40 (-1) 120 = (-1, -1) := by
  rw [bestOf, scanRange_master41, List.foldl_cons, List.foldl_nil]
  rw [scanStep, live40_len, if_pos denM_master41_0_pos, pearson_master41_0]
  norm_num

/-- The main (non-early-exit) branch of `findMatch`, expressed through the
loop result `bestOf`. -/
lemma findMatch_eq_main (m live : Env) (hint width : ℝ)
    (h40 : ¬ live.len < TARGET_SAMPLE_RATE * 2)
    (hgate : ¬ (rmsL live < MIN_RMS_THRESHOLD ∨ varianceL live < MIN_VARIANCE_THRESHOLD))
    (hden : ¬ denL live = 0) :
    findMatch (some m) live hint width
      = ⟨(((bestOf m live hint width).2 : ℝ) + (live.len : ℝ)) / (TARGET_SAMPLE_RATE : ℝ),
         max 0 ((bestOf m live hint width).1 * 100)⟩ := by
  rw [findMatch, if_neg h40, if_neg hgate, if_neg hden]
  rfl

/-- Evaluation of `findMatch` on the test pair: confidence 0 and sentinel-derived time. -/
lemma findMatch_master41 : findMatch (some master41) live40 (-1) 120 = ⟨39 / 20, 0⟩ := by
  rw [findMatch_eq_main master41 live40 (-1) 120 live40_not_short live40_gates denL_live40_ne,
      bestOf_master41, live40_len, TARGET_SAMPLE_RATE]
  show (⟨(((-1 : ℤ) : ℝ) + (40 : ℕ)) / (20 : ℕ), max 0 (-1 * 100)⟩ : MatchResult) = _
  rw [max_eq_left (by norm_num : (-1 : ℝ) * 100 ≤ 0)]
  norm_num

/-- Membership in the global scan range: exactly the offsets strictly below
`M - N`. -/
lemma mem_scanRange_global (M N : ℕ) (hint width : ℝ)
    (hglobal : ¬ (0 ≤ hint ∧ 0 < width)) (i : ℕ) :
    i ∈ scanRange M N hint width ↔ (i : ℤ) < (M : ℤ) - (N : ℤ) := by
  rw [scanRange, if_neg hglobal, List.mem_range'_1]
  simp only [Int.lt_toNat, zero_add, Nat.zero_le, true_and]

/-! ## Claims about the matcher -/

/-- C4: `findMatch` returns `{currentTime: 0, confidence: 0}`, regardless of
the master envelope's content, whenever any precondition fails: no master
fingerprint, live envelope shorter than 40 samples, live RMS below the 0.005
energy floor, live variance below the 0.0005 flatness floor, or live-side
denominator `denL` equal to zero. -/
theorem claim4_early_exit_zero (master : Option Env) (live : Env) (hint width : ℝ)
    (h : master = none ∨ live.len < TARGET_SAMPLE_RATE * 2 ∨
      rmsL live < MIN_RMS_THRESHOLD ∨ varianceL live < MIN_VARIANCE_THRESHOLD ∨
      denL live = 0) :
    findMatch master live hint width = ⟨0, 0⟩ := by
  match master with
  | none => rfl
  | some m =>
    rw [findMatch]
    split_ifs with h1 h2 h3
    · rfl
    · rfl
    · rfl
    · exfalso
      rcases h with h | h | h | h | h
      · exact Option.some_ne_none m h
      · exact h1 h
      · exact h2 (Or.inl h)
      · exact h2 (Or.inr h)
      · exact h3 h

/-- Witness for C4 at a concrete input: a null master fingerprint. -/
theorem claim4_witness :
    ((none : Option Env) = none ∨ Env.len ⟨40, fun _ => 1⟩ < TARGET_SAMPLE_RATE * 2 ∨
      rmsL ⟨40, fun _ => 1⟩ < MIN_RMS_THRESHOLD ∨
      varianceL ⟨40, fun _ => 1⟩ < MIN_VARIANCE_THRESHOLD ∨
      denL ⟨40, fun _ => 1⟩ = 0) ∧
    findMatch none ⟨40, fun _ => 1⟩ (-1) 120 = ⟨0, 0⟩ :=
  ⟨Or.inl rfl, claim4_early_exit_zero none ⟨40, fun _ => 1⟩ (-1) 120 (Or.inl rfl)⟩

/-- C6: for every input, the confidence returned by `findMatch` lies in
`[0, 100]`: it is `max 0 (bestR) * 100` for a best Pearson coefficient
`bestR ≤ 1`, so negative correlation never yields negative confidence and the
confidence never exceeds 100. -/
theorem claim6_confidence_in_range (master : Option Env) (live : Env) (hint width : ℝ) :
    0 ≤ (findMatch master live hint width).confidence ∧
    (findMatch master live hint width).confidence ≤ 100 := by
  match master with
  | none => exact ⟨le_refl _, by show (0 : ℝ) ≤ 100; norm_num⟩
  | some m =>
    rw [findMatch]
    split_ifs with h1 h2 h3
    · exact ⟨le_refl _, by show (0 : ℝ) ≤ 100; norm_num⟩
    · exact ⟨le_refl _, by show (0 : ℝ) ≤ 100; norm_num⟩
    · exact ⟨le_refl _, by show (0 : ℝ) ≤ 100; norm_num⟩
    · have hn : 0 < live.len := by
        rw [TARGET_SAMPLE_RATE] at h1; omega
      have hb := foldl_scanStep_le_one m live hn h3
        (scanRange m.len live.len hint width) (-1, -1) (by norm_num)
      constructor
      · exact le_max_left _ _
      · refine max_le (by norm_num) ?_
        nlinarith [hb]

/-- C5 counterexample: the claim says the global scan covers the inclusive
offset range `[0, M-N]`.  On `master41`/`live40` we have `M - N = 1`; offset
`1` is a valid start offset whose Pearson coefficient is the maximal value
`1` (an exact copy of the live envelope), yet the loop never examines it
(`scanRange` is `[0]`) and `findMatch` returns confidence `0` instead of the
maximum over the inclusive range. -/
theorem claim5_counterexample :
    (master41.len : ℤ) - (live40.len : ℤ) = 1 ∧
    (1 : ℕ) ∉ scanRange master41.len live40.len (-1) 120 ∧
    pearsonAt master41 live40 1 = 1 ∧
    findMatch (some master41) live40 (-1) 120 = ⟨39 / 20, 0⟩ := by
  refine ⟨by rw [master41_len, live40_len]; norm_num, ?_, pearson_master41_1,
    findMatch_master41⟩
  rw [scanRange_master41]
  decide

/-- C5 (amended): when `findMatch` performs a global scan (no hint, or width
at most 0), it evaluates the Pearson coefficient at every valid start offset
in the half-open range `[0, M-N)` — the loop bound is exclusive, so offset
`M-N` itself is never examined — with no step-skipping or early termination,
and it returns the maximum coefficient over that range: every scanned offset
with positive master-window denominator is dominated by the returned best,
the returned confidence is `max 0 (bestR * 100)`, and the best pair is either
the untouched sentinel `(-1, -1)` or is realized at a scanned offset that
also determines the returned time. -/
theorem claim5_amended_global_scan_max (m live : Env) (hint width : ℝ)
    (hglobal : ¬ (0 ≤ hint ∧ 0 < width))
    (h40 : ¬ live.len < TARGET_SAMPLE_RATE * 2)
    (hgate : ¬ (rmsL live < MIN_RMS_THRESHOLD ∨ varianceL live < MIN_VARIANCE_THRESHOLD))
    (hden : ¬ denL live = 0) :
    (∀ i : ℕ, (i : ℤ) < (m.len : ℤ) - (live.len : ℤ) → 0 < denMAt m live.len i →
        pearsonAt m live i ≤ (bestOf m live hint width).1) ∧
    (findMatch (some m) live hint width).confidence
      = max 0 ((bestOf m live hint width).1 * 100) ∧
    (bestOf m live hint width = (-1, -1) ∨
      ∃ i : ℕ, (i : ℤ) < (m.len : ℤ) - (live.len : ℤ) ∧ 0 < denMAt m live.len i ∧
        (bestOf m live hint width).1 = pearsonAt m live i ∧
        (bestOf m live hint width).2 = (i : ℤ) ∧
        (findMatch (some m) live hint width).currentTime
          = ((i : ℝ) + (live.len : ℝ)) / (TARGET_SAMPLE_RATE : ℝ)) := by
  have hmem := mem_scanRange_global m.len live.len hint width hglobal
  have hfm := findMatch_eq_main m live hint width h40 hgate hden
  refine ⟨?_, ?_, ?_⟩
  · intro i hi hden2
    exact foldl_scanStep_dominates m live _ (-1, -1) i ((hmem i).mpr hi) hden2
  · rw [hfm]
  · rcases foldl_scanStep_achieves m live (scanRange m.len live.len hint width) (-1, -1)
      with h | ⟨i, hi, hd, h1, h2, _⟩
    · exact Or.inl h
    · right
      refine ⟨i, (hmem i).mp hi, hd, h1, h2, ?_⟩
      rw [hfm]
      show (((bestOf m live hint width).2 : ℝ) + (live.len : ℝ)) / (TARGET_SAMPLE_RATE : ℝ) = _
      rw [show bestOf m live hint width
          = (scanRange m.len live.len hint width).foldl (scanStep m live) (-1, -1) from rfl]
      rw [h2]
      push_cast
      ring

/-- Witness for the amended C5 at the concrete pair `master41`/`live40`. -/
theorem claim5_witness :
    (¬ ((0 : ℝ) ≤ -1 ∧ (0 : ℝ) < 120)) ∧
    ((∀ i : ℕ, (i : ℤ) < (master41.len : ℤ) - (live40.len : ℤ) →
        0 < denMAt master41 live40.len i →
        pearsonAt master41 live40 i ≤ (bestOf master41 live40 (-1) 120).1) ∧
     (findMatch (some master41) live40 (-1) 120).confidence
        = max 0 ((bestOf master41 live40 (-1) 120).1 * 100) ∧
     (bestOf master41 live40 (-1) 120 = (-1, -1) ∨
       ∃ i : ℕ, (i : ℤ) < (master41.len : ℤ) - (live40.len : ℤ) ∧
         0 < denMAt master41 live40.len i ∧
         (bestOf master41 live40 (-1) 120).1 = pearsonAt master41 live40 i ∧
         (bestOf master41 live40 (-1) 120).2 = (i : ℤ) ∧
         (findMatch (some master41) live40 (-1) 120).currentTime
           = ((i : ℝ) + (live40.len : ℝ)) / (TARGET_SAMPLE_RATE : ℝ))) :=
  ⟨by norm_num,
   claim5_amended_global_scan_max master41 live40 (-1) 120 (by norm_num)
     live40_not_short live40_gates denL_live40_ne⟩

/-- C10: when the scan range is empty (for instance the master envelope is
not longer than the live envelope, or a local window produces no candidate
offsets), `findMatch` examines no candidate and returns confidence `0`, but
its `currentTime` is `(N - 1) / 20`, derived from the sentinel best index
`-1` plus the live length — not `0`. -/
theorem claim10_empty_scan_sentinel_time (m live : Env) (hint width : ℝ)
    (h40 : ¬ live.len < TARGET_SAMPLE_RATE * 2)
    (hgate : ¬ (rmsL live < MIN_RMS_THRESHOLD ∨ varianceL live < MIN_VARIANCE_THRESHOLD))
    (hden : ¬ denL live = 0)
    (hempty : scanRange m.len live.len hint width = []) :
    findMatch (some m) live hint width
      = ⟨((live.len : ℝ) - 1) / (TARGET_SAMPLE_RATE : ℝ), 0⟩ := by
  have hb : bestOf m live hint width = (-1, -1) := by
    rw [bestOf, hempty]
    rfl
  rw [findMatch_eq_main m live hint width h40 hgate hden, hb]
  congr 1
  · push_cast
    ring
  · rw [show ((-1, -1) : ℝ × ℤ).1 = (-1 : ℝ) from rfl]
    rw [max_eq_left (by norm_num : (-1 : ℝ) * 100 ≤ 0)]

/-- Witness for C10: a master of the same length as the live envelope
(`M - N = 0`, empty global scan) yields time `39/20` and confidence `0`. -/
theorem claim10_witness :
    scanRange live40.len live40.len (-1) 120 = [] ∧
    findMatch (some live40) live40 (-1) 120 = ⟨39 / 20, 0⟩ := by
  have hempty : scanRange live40.len live40.len (-1) 120 = [] := by
    rw [live40_len, scanRange, if_neg (by norm_num : ¬ ((0 : ℝ) ≤ -1 ∧ (0 : ℝ) < 120))]
    decide
  refine ⟨hempty, ?_⟩
  rw [claim10_empty_scan_sentinel_time live40 live40 (-1) 120 live40_not_short
    live40_gates denL_live40_ne hempty, live40_len, TARGET_SAMPLE_RATE]
  norm_num

/-! ## Gain and offset invariance of the Pearson scan -/

lemma scaleEnv_len (a b : ℝ) (e : Env) : (scaleEnv a b e).len = e.len := rfl

lemma sumL_scale (a b : ℝ) (e : Env) :
    sumL (scaleEnv a b e) = a * sumL e + (e.len : ℝ) * b := by
  rw [sumL, sumL, scaleEnv_len]
  show ∑ i ∈ Finset.range e.len, (a * e.val i + b) = _
  rw [Finset.sum_add_distrib, ← Finset.mul_sum, Finset.sum_const, Finset.card_range,
      nsmul_eq_mul]

lemma sumSqL_scale (a b : ℝ) (e : Env) :
    sumSqL (scaleEnv a b e)
      = a * a * sumSqL e + 2 * a * b * sumL e + (e.len : ℝ) * (b * b) := by
  rw [sumSqL, sumSqL, sumL, scaleEnv_len]
  show ∑ i ∈ Finset.range e.len, (a * e.val i + b) * (a * e.val i + b) = _
  have expand : ∀ i ∈ Finset.range e.len, (a * e.val i + b) * (a * e.val i + b)
      = a * a * (e.val i * e.val i) + 2 * a * b * e.val i + b * b := by
    intro i _; ring
  rw [Finset.sum_congr rfl expand, Finset.sum_add_distrib, Finset.sum_add_distrib,
      ← Finset.mul_sum, ← Finset.mul_sum, Finset.sum_const, Finset.card_range,
      nsmul_eq_mul]

lemma meanL_scale (a b : ℝ) (e : Env) (hn : (e.len : ℝ) ≠ 0) :
    meanL (scaleEnv a b e) = a * meanL e + b := by
  rw [meanL, meanL, sumL_scale, scaleEnv_len]
  field_simp
  ring

lemma centered_scale (a b : ℝ) (e : Env) (hn : (e.len : ℝ) ≠ 0) (j : ℕ) :
    (scaleEnv a b e).val j - meanL (scaleEnv a b e) = a * (e.val j - meanL e) := by
  rw [meanL_scale a b e hn]
  show a * e.val j + b - (a * meanL e + b) = _
  ring

lemma denL_scale (a b : ℝ) (e : Env) (ha : 0 ≤ a) (hn : (e.len : ℝ) ≠ 0) :
    denL (scaleEnv a b e) = a * denL e := by
  rw [denL_eq_sqrt (scaleEnv a b e) (by rw [scaleEnv_len]; exact hn),
      denL_eq_sqrt e hn, scaleEnv_len]
  have expand : ∀ j ∈ Finset.range e.len,
      ((scaleEnv a b e).val j - meanL (scaleEnv a b e))
        * ((scaleEnv a b e).val j - meanL (scaleEnv a b e))
      = a * a * ((e.val j - meanL e) * (e.val j - meanL e)) := by
    intro j _
    rw [centered_scale a b e hn j]
    ring
  rw [Finset.sum_congr rfl expand, ← Finset.mul_sum,
      Real.sqrt_mul (mul_self_nonneg a), Real.sqrt_mul_self ha]

lemma cov_scale (m : Env) (a b : ℝ) (e : Env) (hn : (e.len : ℝ) ≠ 0) (i : ℕ) :
    crossSumAt m (scaleEnv a b e) i
      - ((scaleEnv a b e).len : ℝ) * meanL (scaleEnv a b e)
        * meanMAt m (scaleEnv a b e).len i
    = a * (crossSumAt m e i - (e.len : ℝ) * meanL e * meanMAt m e.len i) := by
  rw [cross_centered m (scaleEnv a b e) i (by rw [scaleEnv_len]; exact hn),
      cross_centered m e i hn, scaleEnv_len]
  have expand : ∀ j ∈ Finset.range e.len,
      (m.val (i + j) - meanMAt m e.len i)
        * ((scaleEnv a b e).val j - meanL (scaleEnv a b e))
      = a * ((m.val (i + j) - meanMAt m e.len i) * (e.val j - meanL e)) := by
    intro j _
    rw [centered_scale a b e hn j]
    ring
  rw [Finset.sum_congr rfl expand, ← Finset.mul_sum]

lemma pearsonAt_scale (m : Env) (a b : ℝ) (e : Env) (ha : 0 < a)
    (hn : (e.len : ℝ) ≠ 0) (i : ℕ) :
    pearsonAt m (scaleEnv a b e) i = pearsonAt m e i := by
  rw [pearsonAt, pearsonAt, cov_scale m a b e hn i, scaleEnv_len,
      denL_scale a b e ha.le hn, mul_assoc a (denL e) (denMAt m e.len i)]
  exact mul_div_mul_left _ _ ha.ne'

lemma scanStep_scale (m : Env) (a b : ℝ) (e : Env) (ha : 0 < a)
    (hn : (e.len : ℝ) ≠ 0) :
    scanStep m (scaleEnv a b e) = scanStep m e := by
  funext acc i
  rw [scanStep, scanStep, scaleEnv_len, pearsonAt_scale m a b e ha hn i]

/-- C9: for a live envelope passing the energy and variance gates, a gain
`a > 0` and an offset `b` whose transformed envelope `a*L + b` also passes
the gates, `findMatch` returns the same `currentTime` and the same
`confidence` on the transformed envelope as on the original — the Pearson
scan is invariant under multiplicative gain and additive offset of the live
signal. -/
theorem claim9_gain_offset_invariance (master : Option Env) (live : Env)
    (hint width a b : ℝ) (ha : 0 < a)
    (hgate1 : ¬ (rmsL live < MIN_RMS_THRESHOLD ∨
      varianceL live < MIN_VARIANCE_THRESHOLD))
    (hgate2 : ¬ (rmsL (scaleEnv a b live) < MIN_RMS_THRESHOLD ∨
      varianceL (scaleEnv a b live) < MIN_VARIANCE_THRESHOLD)) :
    findMatch master (scaleEnv a b live) hint width = findMatch master live hint width := by
  match master with
  | none => rfl
  | some m =>
    by_cases h40 : live.len < TARGET_SAMPLE_RATE * 2
    · rw [findMatch, findMatch, if_pos (by rw [scaleEnv_len]; exact h40), if_pos h40]
    · have hn : 0 < live.len := by rw [TARGET_SAMPLE_RATE] at h40; omega
      have hnr : (live.len : ℝ) ≠ 0 := Nat.cast_ne_zero.mpr hn.ne'
      have hds : denL (scaleEnv a b live) = a * denL live := denL_scale a b live ha.le hnr
      by_cases hden : denL live = 0
      · rw [findMatch, findMatch, if_neg (by rw [scaleEnv_len]; exact h40), if_neg h40,
            if_neg hgate2, if_neg hgate1, if_pos (by rw [hds, hden]; ring), if_pos hden]
      · rw [findMatch, findMatch, if_neg (by rw [scaleEnv_len]; exact h40), if_neg h40,
            if_neg hgate2, if_neg hgate1,
            if_neg (by rw [hds]; exact mul_ne_zero ha.ne' hden), if_neg hden]
        simp only [scaleEnv_len, scanStep_scale m a b live ha hnr]

lemma scale_live40_sumSq : sumSqL (scaleEnv 2 1 live40) = 200 := by
  rw [sumSqL_scale, sumSqL_live40, sumL_live40, live40_len]
  norm_num

lemma scale_live40_sum : sumL (scaleEnv 2 1 live40) = 80 := by
  rw [sumL_scale, sumL_live40, live40_len]
  norm_num

lemma scale_live40_gates :
    ¬ (rmsL (scaleEnv 2 1 live40) < MIN_RMS_THRESHOLD ∨
       varianceL (scaleEnv 2 1 live40) < MIN_VARIANCE_THRESHOLD) := by
  rw [rmsL, varianceL, meanL, scale_live40_sumSq, scale_live40_sum, scaleEnv_len,
      live40_len, MIN_RMS_THRESHOLD, MIN_VARIANCE_THRESHOLD]
  push_neg
  constructor
  · rw [show (200 : ℝ) / ((40 : ℕ) : ℝ) = 5 from by norm_num]
    rw [Real.le_sqrt' (by norm_num : (0 : ℝ) < 0.005)]
    norm_num
  · norm_num

/-- Witness for C9: gain 2 and offset 1 on the test live envelope leave the
match result against `master41` unchanged. -/
theorem claim9_witness :
    (0 : ℝ) < 2 ∧
    findMatch (some master41) (scaleEnv 2 1 live40) (-1) 120
      = findMatch (some master41) live40 (-1) 120 :=
  ⟨by norm_num,
   claim9_gain_offset_invariance (some master41) live40 (-1) 120 2 1
     (by norm_num) live40_gates scale_live40_gates⟩

/-! ## The envelope extractor -/

/-- C7: for valid audio (source rate at least the 20 Hz target), the envelope
produced by the extractor has length `floor(duration * 20)` with
`duration = pcmLen / srcRate`, every entry is nonnegative, and every output
window `[i*step, min(i*step + step, pcmLen))` is nonempty — so the per-window
RMS never divides by zero; `createLiveFingerprint` computes the identical
envelope. -/
theorem claim7_envelope_extraction (pcm : ℕ → ℝ) (pcmLen srcRate : ℕ)
    (hrate : 20 ≤ srcRate) :
    (extractEnvelope pcm pcmLen srcRate).len
      = ⌊((pcmLen : ℝ) / (srcRate : ℝ)) * ((TARGET_SAMPLE_RATE : ℕ) : ℝ)⌋₊ ∧
    (∀ i, 0 ≤ (extractEnvelope pcm pcmLen srcRate).val i) ∧
    (∀ i < (extractEnvelope pcm pcmLen srcRate).len,
        i * envStep srcRate < min (i * envStep srcRate + envStep srcRate) pcmLen) ∧
    createLiveFingerprint pcm pcmLen srcRate = extractEnvelope pcm pcmLen srcRate := by
  have hratepos : 0 < srcRate := by omega
  have hrr : (0 : ℝ) < (srcRate : ℝ) := by exact_mod_cast hratepos
  have hstep : 1 ≤ envStep srcRate := by
    rw [envStep]
    refine Nat.le_floor ?_
    rw [Nat.cast_one, le_div_iff₀ (by rw [TARGET_SAMPLE_RATE]; norm_num)]
    rw [TARGET_SAMPLE_RATE]
    push_cast
    exact_mod_cast by linarith [hrate]
  have hmul : envPoints pcmLen srcRate * envStep srcRate ≤ pcmLen := by
    have h1 : ((envPoints pcmLen srcRate : ℕ) : ℝ)
        ≤ (pcmLen : ℝ) / (srcRate : ℝ) * ((TARGET_SAMPLE_RATE : ℕ) : ℝ) :=
      Nat.floor_le (by positivity)
    have h2 : ((envStep srcRate : ℕ) : ℝ)
        ≤ (srcRate : ℝ) / ((TARGET_SAMPLE_RATE : ℕ) : ℝ) :=
      Nat.floor_le (by positivity)
    have h3 : ((envPoints pcmLen srcRate * envStep srcRate : ℕ) : ℝ) ≤ (pcmLen : ℝ) := by
      push_cast
      calc ((envPoints pcmLen srcRate : ℕ) : ℝ) * ((envStep srcRate : ℕ) : ℝ)
          ≤ ((pcmLen : ℝ) / (srcRate : ℝ) * ((TARGET_SAMPLE_RATE : ℕ) : ℝ))
            * ((srcRate : ℝ) / ((TARGET_SAMPLE_RATE : ℕ) : ℝ)) := by
            refine mul_le_mul h1 h2 (Nat.cast_nonneg _) (by positivity)
        _ = (pcmLen : ℝ) := by
            rw [TARGET_SAMPLE_RATE]
            field_simp
    exact_mod_cast h3
  refine ⟨rfl, fun i => Real.sqrt_nonneg _, ?_, rfl⟩
  intro i hi
  have hi1 : i + 1 ≤ envPoints pcmLen srcRate := hi
  have h4 : (i + 1) * envStep srcRate ≤ envPoints pcmLen srcRate * envStep srcRate :=
    Nat.mul_le_mul_right _ hi1
  have h5 : (i + 1) * envStep srcRate = i * envStep srcRate + envStep srcRate := by ring
  rw [lt_min_iff]
  omega

/-- Witness for C7 at a concrete input: 100 constant samples at 20 Hz. -/
theorem claim7_witness :
    (20 : ℕ) ≤ 20 ∧
    ((extractEnvelope (fun _ => 1) 100 20).len
        = ⌊((100 : ℕ) : ℝ) / ((20 : ℕ) : ℝ) * ((TARGET_SAMPLE_RATE : ℕ) : ℝ)⌋₊ ∧
     (∀ i, 0 ≤ (extractEnvelope (fun _ => 1) 100 20).val i) ∧
     (∀ i < (extractEnvelope (fun _ => 1) 100 20).len,
        i * envStep 20 < min (i * envStep 20 + envStep 20) 100) ∧
     createLiveFingerprint (fun _ => 1) 100 20 = extractEnvelope (fun _ => 1) 100 20) :=
  ⟨le_refl 20, claim7_envelope_extraction (fun _ => 1) 100 20 (le_refl 20)⟩

/-! ## Claims about the sync controller -/

/-- C2: once the controller holds the permanent (infinite) lock, every tick
reports 100% confidence, does not invoke the Correlation Matcher (the tick is
also independent of whatever the matcher would have returned), and leaves the
believed timeline position, the lock and the candidate unchanged. -/
theorem claim2_locked_cruise (st : SyncState) (now : ℝ) (ready : Bool)
    (result : MatchResult) (hlock : st.syncLockUntil = LockTime.inf) :
    (runSyncCheck st now ready result).2.matcherInvoked = false ∧
    (runSyncCheck st now ready result).2.syncConfidence = some 100 ∧
    (runSyncCheck st now ready result).1.currentMovieTime = st.currentMovieTime ∧
    (runSyncCheck st now ready result).1.syncLockUntil = LockTime.inf ∧
    (runSyncCheck st now ready result).1.potentialSync = st.potentialSync ∧
    ∀ result2 : MatchResult,
      runSyncCheck st now ready result2 = runSyncCheck st now ready result := by
  have key : ∀ r : MatchResult, runSyncCheck st now ready r
      = ({ st with isLocked := true }, ⟨false, false, some 100⟩) := by
    intro r
    rw [runSyncCheck, hlock]
  refine ⟨by rw [key], by rw [key], by rw [key], ?_, by rw [key], fun r2 => by rw [key, key]⟩
  rw [key]
  exact hlock

/-- Witness for C2 on a concrete locked state. -/
theorem claim2_witness :
    (SyncState.mk 100 LockTime.inf none false false).syncLockUntil = LockTime.inf ∧
    ((runSyncCheck ⟨100, LockTime.inf, none, false, false⟩ 0 true ⟨50, 90⟩).2.matcherInvoked = false ∧
     (runSyncCheck ⟨100, LockTime.inf, none, false, false⟩ 0 true ⟨50, 90⟩).2.syncConfidence = some 100 ∧
     (runSyncCheck ⟨100, LockTime.inf, none, false, false⟩ 0 true ⟨50, 90⟩).1.currentMovieTime
        = (SyncState.mk 100 LockTime.inf none false false).currentMovieTime ∧
     (runSyncCheck ⟨100, LockTime.inf, none, false, false⟩ 0 true ⟨50, 90⟩).1.syncLockUntil = LockTime.inf ∧
     (runSyncCheck ⟨100, LockTime.inf, none, false, false⟩ 0 true ⟨50, 90⟩).1.potentialSync
        = (SyncState.mk 100 LockTime.inf none false false).potentialSync ∧
     ∀ result2 : MatchResult,
       runSyncCheck ⟨100, LockTime.inf, none, false, false⟩ 0 true result2
         = runSyncCheck ⟨100, LockTime.inf, none, false, false⟩ 0 true ⟨50, 90⟩) :=
  ⟨rfl, claim2_locked_cruise ⟨100, LockTime.inf, none, false, false⟩ 0 true ⟨50, 90⟩ rfl⟩

/-- C8: after `seek(t)` at wall-clock `T`, the believed position is `t`, the
permanent lock is dropped (the lock becomes the finite deadline `T + 5000`),
and every tick occurring within 5 seconds of the seek performs no matching,
accepts nothing, and leaves the position, lock and candidate unchanged. -/
theorem claim8_seek_stabilizing_window (st : SyncState) (t T now : ℝ) (ready : Bool)
    (result : MatchResult) (hwin : now < T + 5000) :
    (seekTo st t T).currentMovieTime = t ∧
    (seekTo st t T).syncLockUntil = LockTime.fin (T + 5000) ∧
    (runSyncCheck (seekTo st t T) now ready result).2.matcherInvoked = false ∧
    (runSyncCheck (seekTo st t T) now ready result).2.accepted = false ∧
    (runSyncCheck (seekTo st t T) now ready result).1.currentMovieTime = t ∧
    (runSyncCheck (seekTo st t T) now ready result).1.syncLockUntil = LockTime.fin (T + 5000) ∧
    (runSyncCheck (seekTo st t T) now ready result).1.potentialSync = st.potentialSync := by
  have hlock : (seekTo st t T).syncLockUntil = LockTime.fin (T + 5000) := rfl
  have key : runSyncCheck (seekTo st t T) now ready result
      = ({ seekTo st t T with isLocked := false }, ⟨false, false, none⟩) := by
    rw [runSyncCheck, hlock]
    dsimp only
    cases ready with
    | false =>
      rw [if_pos rfl]
      rfl
    | true =>
      rw [if_neg (by simp : ¬(true = false)), if_pos hwin]
      rfl
  exact ⟨rfl, rfl, by rw [key], by rw [key], by rw [key]; rfl, by rw [key]; rfl,
    by rw [key]; rfl⟩

/-- Witness for C8 on a concrete seek out of a locked state. -/
theorem claim8_witness :
    ((2000 : ℝ) < 1000 + 5000) ∧
    ((seekTo ⟨0, LockTime.inf, none, false, false⟩ 42 1000).currentMovieTime = 42 ∧
     (seekTo ⟨0, LockTime.inf, none, false, false⟩ 42 1000).syncLockUntil
        = LockTime.fin (1000 + 5000) ∧
     (runSyncCheck (seekTo ⟨0, LockTime.inf, none, false, false⟩ 42 1000) 2000 true
        ⟨100, 99⟩).2.matcherInvoked = false ∧
     (runSyncCheck (seekTo ⟨0, LockTime.inf, none, false, false⟩ 42 1000) 2000 true
        ⟨100, 99⟩).2.accepted = false ∧
     (runSyncCheck (seekTo ⟨0, LockTime.inf, none, false, false⟩ 42 1000) 2000 true
        ⟨100, 99⟩).1.currentMovieTime = 42 ∧
     (runSyncCheck (seekTo ⟨0, LockTime.inf, none, false, false⟩ 42 1000) 2000 true
        ⟨100, 99⟩).1.syncLockUntil = LockTime.fin (1000 + 5000) ∧
     (runSyncCheck (seekTo ⟨0, LockTime.inf, none, false, false⟩ 42 1000) 2000 true
        ⟨100, 99⟩).1.potentialSync
        = (SyncState.mk 0 LockTime.inf none false false).potentialSync) :=
  ⟨by norm_num,
   claim8_seek_stabilizing_window ⟨0, LockTime.inf, none, false, false⟩ 42 1000 2000 true
     ⟨100, 99⟩ (by norm_num)⟩

/-- C3 counterexample: the claim says a match whose confidence equals the
mode's minimum exactly is accepted.  In global mode the minimum is 30; a tick
with confidence exactly 30 (candidate handling would create a first
observation) is not accepted: the branch is not taken and the candidate stays
`none`. -/
theorem claim3_counterexample :
    MIN_CONFIDENCE true = 30 ∧
    (MatchResult.mk 50 30).confidence = MIN_CONFIDENCE true ∧
    (runSyncCheck ⟨0, LockTime.fin 0, none, true, false⟩ 0 true ⟨50, 30⟩).2.accepted = false ∧
    (runSyncCheck ⟨0, LockTime.fin 0, none, true, false⟩ 0 true ⟨50, 30⟩).1.potentialSync = none := by
  refine ⟨rfl, by rw [MIN_CONFIDENCE]; norm_num, ?_, ?_⟩ <;>
  · rw [runSyncCheck]
    dsimp only
    rw [if_neg (by simp : ¬(true = false)), if_neg (by norm_num : ¬(0 : ℝ) < 0),
        if_neg (by rw [MIN_CONFIDENCE]; norm_num :
          ¬ MIN_CONFIDENCE (SyncState.mk 0 (LockTime.fin 0) none true false).isGlobalScanNeeded
            < (MatchResult.mk 50 30).confidence)]

/-- C3 (amended): on a tick that performs matching, a match is accepted for
candidate handling exactly when its confidence is strictly greater than the
current mode's minimum acceptance confidence (30 in global mode, 40 in local
mode); a match whose confidence equals the minimum exactly is NOT accepted,
and a match below the minimum is not accepted. -/
theorem claim3_amended_strict_acceptance (st : SyncState) (L now : ℝ)
    (result : MatchResult) (hlock : st.syncLockUntil = LockTime.fin L)
    (hnow : ¬ now < L) :
    ((runSyncCheck st now true result).2.accepted = true
        ↔ MIN_CONFIDENCE st.isGlobalScanNeeded < result.confidence) ∧
    MIN_CONFIDENCE true = 30 ∧ MIN_CONFIDENCE false = 40 := by
  refine ⟨?_, rfl, rfl⟩
  rw [runSyncCheck, hlock]
  dsimp only
  rw [if_neg (by simp : ¬(true = false)), if_neg hnow]
  by_cases hc : MIN_CONFIDENCE st.isGlobalScanNeeded < result.confidence
  · rw [if_pos hc]
    simp only [hc, iff_true]
    rcases hpot : st.potentialSync with _ | p <;> dsimp only <;> split_ifs <;> rfl
  · rw [if_neg hc]
    simp [hc]

/-- Witness for the amended C3: confidence 50 in global mode is accepted. -/
theorem claim3_witness :
    (SyncState.mk 7 (LockTime.fin 0) none true false).syncLockUntil = LockTime.fin 0 ∧
    (((runSyncCheck ⟨7, LockTime.fin 0, none, true, false⟩ 1 true ⟨50, 50⟩).2.accepted = true
        ↔ MIN_CONFIDENCE (SyncState.mk 7 (LockTime.fin 0) none true false).isGlobalScanNeeded
            < (MatchResult.mk 50 50).confidence) ∧
     MIN_CONFIDENCE true = 30 ∧ MIN_CONFIDENCE false = 40) :=
  ⟨rfl,
   claim3_amended_strict_acceptance ⟨7, LockTime.fin 0, none, true, false⟩ 0 1 ⟨50, 50⟩
     rfl (by norm_num)⟩

/-- C1 counterexample: a local-mode tick (global scan not needed) with an
existing candidate of count 1, confidence 50 (above the local minimum 40),
whose adjusted match time `101.5` is within 2 seconds of the candidate's
extrapolation `101` — but within 3 seconds of the current position `100`.
The claim requires the verification count to reach 2 and the controller to
commit; the code instead clears the candidate and does not commit. -/
theorem claim1_counterexample :
    MIN_CONFIDENCE false < (50 : ℝ) ∧
    |(102 : ℝ) - 0.5 - (101 + ((0 : ℝ) - 0) / 1000)| < 2 ∧
    (runSyncCheck ⟨100, LockTime.fin 0, some ⟨101, 0, 1⟩, false, false⟩ 0 true
      ⟨102, 50⟩).1.potentialSync = none ∧
    (runSyncCheck ⟨100, LockTime.fin 0, some ⟨101, 0, 1⟩, false, false⟩ 0 true
      ⟨102, 50⟩).1.syncLockUntil = LockTime.fin 0 ∧
    (runSyncCheck ⟨100, LockTime.fin 0, some ⟨101, 0, 1⟩, false, false⟩ 0 true
      ⟨102, 50⟩).1.currentMovieTime = 100 := by
  refine ⟨by rw [MIN_CONFIDENCE]; norm_num, by norm_num [abs_of_nonneg], ?_, ?_, ?_⟩ <;>
  · rw [runSyncCheck]
    dsimp only
    rw [if_neg (by simp : ¬(true = false)), if_neg (by norm_num : ¬(0 : ℝ) < 0),
        if_pos (by rw [MIN_CONFIDENCE]; norm_num :
          MIN_CONFIDENCE (SyncState.mk 100 (LockTime.fin 0) (some ⟨101, 0, 1⟩) false
            false).isGlobalScanNeeded < (MatchResult.mk 102 50).confidence),
        if_neg (by rw [LATENCY_COMPENSATION]; norm_num [abs_of_nonneg] :
          ¬ ((3 : ℝ) < |max 0 ((MatchResult.mk 102 50).currentTime - LATENCY_COMPENSATION)
              - (SyncState.mk 100 (LockTime.fin 0) (some ⟨101, 0, 1⟩) false
                  false).currentMovieTime|
            ∨ (SyncState.mk 100 (LockTime.fin 0) (some ⟨101, 0, 1⟩) false
                false).isGlobalScanNeeded = true))]

/-- C1 (amended): on a tick that performs matching, whose match confidence
strictly exceeds the mode's minimum, when the verification gate holds (the
scan is global, or the adjusted time differs from the current believed
position by more than 3 seconds) and a prior unconfirmed candidate exists:
if the latency-adjusted match time (matched offset minus the 0.5 s latency
compensation) is within 2 seconds of the candidate's position extrapolated to
now by elapsed wall-clock time, the verification count is incremented, and
since it reaches 2 the controller commits — it adopts the adjusted time as
the new believed timeline position, enters the permanently `Locked` state
(infinite lock) and clears the candidate; if instead the adjusted match time
diverges from the extrapolation by at least 2 seconds, the candidate is
replaced by a fresh first observation with count 1 rather than being
discarded. -/
theorem claim1_amended_verify_commit_or_reset (st : SyncState) (L now : ℝ)
    (p : Candidate) (result : MatchResult)
    (hlock : st.syncLockUntil = LockTime.fin L)
    (hnow : ¬ now < L)
    (hcand : st.potentialSync = some p)
    (hconf : MIN_CONFIDENCE st.isGlobalScanNeeded < result.confidence)
    (hadj : LATENCY_COMPENSATION ≤ result.currentTime)
    (hgate : 3 < |result.currentTime - LATENCY_COMPENSATION - st.currentMovieTime|
              ∨ st.isGlobalScanNeeded = true) :
    ((|result.currentTime - LATENCY_COMPENSATION - (p.time + (now - p.timestamp) / 1000)| < 2 →
        1 ≤ p.count →
        (runSyncCheck st now true result).1.currentMovieTime
            = result.currentTime - LATENCY_COMPENSATION ∧
        (runSyncCheck st now true result).1.syncLockUntil = LockTime.inf ∧
        (runSyncCheck st now true result).1.potentialSync = none) ∧
     (2 ≤ |result.currentTime - LATENCY_COMPENSATION - (p.time + (now - p.timestamp) / 1000)| →
        (runSyncCheck st now true result).1.potentialSync
            = some ⟨result.currentTime - LATENCY_COMPENSATION, now, 1⟩ ∧
        (runSyncCheck st now true result).1.currentMovieTime = st.currentMovieTime ∧
        (runSyncCheck st now true result).1.syncLockUntil = LockTime.fin L)) := by
  have hadj2 : max 0 (result.currentTime - LATENCY_COMPENSATION)
      = result.currentTime - LATENCY_COMPENSATION :=
    max_eq_right (by linarith)
  constructor
  · intro hdrift hcount
    have h2p : 2 ≤ p.count + 1 := by omega
    refine ⟨?_, ?_, ?_⟩ <;>
    · rw [runSyncCheck, hlock]
      dsimp only
      rw [if_neg (by simp : ¬(true = false)), if_neg hnow, if_pos hconf, hcand]
      dsimp only
      rw [hadj2, if_pos hgate, if_pos hdrift, if_pos h2p]
      try rfl
  · intro hdrift2
    have hnd : ¬ |result.currentTime - LATENCY_COMPENSATION
        - (p.time + (now - p.timestamp) / 1000)| < 2 := not_lt.mpr hdrift2
    refine ⟨?_, ?_, ?_⟩ <;>
    · rw [runSyncCheck, hlock]
      dsimp only
      rw [if_neg (by simp : ¬(true = false)), if_neg hnow, if_pos hconf, hcand]
      dsimp only
      rw [hadj2, if_pos hgate, if_neg hnd]

/-- Witness for the amended C1: the commit case at a concrete global-mode
tick with candidate count 1 and a match at `10.5` seconds. -/
theorem claim1_witness :
    MIN_CONFIDENCE true < (50 : ℝ) ∧
    ((runSyncCheck ⟨0, LockTime.fin 0, some ⟨10, 0, 1⟩, true, false⟩ 0 true
        ⟨10.5, 50⟩).1.currentMovieTime
        = (MatchResult.mk 10.5 50).currentTime - LATENCY_COMPENSATION ∧
     (runSyncCheck ⟨0, LockTime.fin 0, some ⟨10, 0, 1⟩, true, false⟩ 0 true
        ⟨10.5, 50⟩).1.syncLockUntil = LockTime.inf ∧
     (runSyncCheck ⟨0, LockTime.fin 0, some ⟨10, 0, 1⟩, true, false⟩ 0 true
        ⟨10.5, 50⟩).1.potentialSync = none) :=
  ⟨by rw [MIN_CONFIDENCE]; norm_num,
   (claim1_amended_verify_commit_or_reset ⟨0, LockTime.fin 0, some ⟨10, 0, 1⟩, true, false⟩
      0 0 ⟨10, 0, 1⟩ ⟨10.5, 50⟩ rfl (by norm_num) rfl
      (by rw [MIN_CONFIDENCE]; norm_num)
      (by rw [LATENCY_COMPENSATION]; norm_num)
      (Or.inr rfl)).1
     (by rw [LATENCY_COMPENSATION]; norm_num) (by norm_num)⟩

end Cinevoz
